import Mathlib

/-!
# Verification of the ComfyUI-LastImageComparison relay/transport layer

A shallow embedding of the repository's core components, with theorems
checking the natural-language specification against the code:

* `protocol.py` — the message codec (`validate_message`, `serialize_message`,
  `deserialize_message`), including a model of Python's `json.dumps` /
  `json.loads` at the granularity the codec uses them (objects, arrays,
  strings with the default `ensure_ascii` escaping, integer numbers,
  booleans and `null`; float literals are outside the model's scope —
  every numeric field of the protocol is an integer timestamp).
* `ws_push_client.py` — the push client's state record, `push_message`,
  `update_config`, and the reconnect backoff computed in `_connect`.
* `viewer_routes.py` / `viewer_service/server.py` — the two relay
  websocket handlers: accept, per-text-frame processing, and the
  broadcast sweep that prunes failed connections.
-/

namespace LIC

/-! ## JSON values

A Python value as produced by `json.loads` in this codebase.  Numbers are
modelled as integers: the only numeric protocol field is the millisecond
timestamp (an `int`), and no float literal appears on the wire in the
modelled flows.  Objects keep insertion order, matching Python 3.7+ dicts. -/

inductive JValue : Type where
  | null : JValue
  | bool : Bool → JValue
  | num : Int → JValue
  | str : String → JValue
  | arr : List JValue → JValue
  | obj : List (String × JValue) → JValue

/-- Membership of a key in an object's member list (Python `k in d.keys()`). -/
def hasKey (kvs : List (String × JValue)) (k : String) : Bool :=
  kvs.any (fun p => p.1 = k)

/-! ## Push client state (`ws_push_client.py`, `WSPushClient`)

The mutable attributes set in `WSPushClient.__init__` that the verified
operations read or write.  The `Queue()` is modelled as a FIFO list plus the
`maxsize` it was constructed with (`0` means unbounded, the Python default).
`loop_running` models `self.loop and self.loop.is_running()`. -/

structure WSPushClient where
  ws_url : String
  auto_connect : Bool
  message_queue : List JValue
  queue_maxsize : Nat
  ws : Option Nat
  running : Bool
  connected : Bool
  reconnect_attempts : Nat
  loop_running : Bool

/-- Model of `WSPushClient.__init__`: the queue is `Queue()` — no capacity bound
(`maxsize = 0`), empty; the client starts stopped and disconnected. -/
def initClient (url : String) (ac : Bool) : WSPushClient :=
  { ws_url := url
    auto_connect := ac
    message_queue := []
    queue_maxsize := 0
    ws := none
    running := false
    connected := false
    reconnect_attempts := 0
    loop_running := false }

/-- Model of `queue.Queue.put_nowait`: appends to the back; `none` models the `Full`
exception raised when `maxsize > 0` and the queue already holds `maxsize`
items. -/
def put_nowait (maxsize : Nat) (q : List JValue) (m : JValue) :
    Option (List JValue) :=
  if maxsize = 0 ∨ q.length < maxsize then some (q ++ [m]) else none

/-- Model of `WSPushClient.push_message`: returns `False` when not running; otherwise
tries `put_nowait` and converts any failure into `False` (the
`except Exception: return False` branch). Total — nothing propagates. -/
def push_message (c : WSPushClient) (m : JValue) : Bool × WSPushClient :=
  if c.running then
    match put_nowait c.queue_maxsize c.message_queue m with
    | some q => (true, { c with message_queue := q })
    | none => (false, c)
  else (false, c)

/-- Model of `WSPushClient._close_ws_only`: the coroutine scheduled by
`update_config`; closes and clears the websocket handle, touching nothing
else. -/
def close_ws_only (c : WSPushClient) : WSPushClient :=
  { c with ws := none }

/-- Whitespace as Python `str.strip()` removes it (the ASCII part; the
protocol's urls are ASCII). -/
def isStripWs (c : Char) : Bool :=
  c = ' ' || c = '\t' || c = '\n' || c = '\r' || c = '\x0b' || c = '\x0c'

/-- Drop leading strip-whitespace. -/
def dropLeadingWs : List Char → List Char
  | c :: cs => if isStripWs c then dropLeadingWs cs else c :: cs
  | [] => []

/-- Python `str.strip()`: drop whitespace from both ends. -/
def pyStrip (s : String) : String :=
  String.mk ((dropLeadingWs (dropLeadingWs s.data).reverse).reverse)

/-- Model of `WSPushClient.update_config`: strips the new url (`(ws_url or
"").strip()`); on a non-empty changed url it stores it and clears
`connected`, and — when the background loop is running — schedules
`_close_ws_only` (the returned flag records that the close was
requested). `auto_connect` is always overwritten. -/
def update_config (c : WSPushClient) (ws_url : String) (auto_connect : Bool) :
    WSPushClient × Bool :=
  if pyStrip ws_url ≠ "" ∧ pyStrip ws_url ≠ c.ws_url then
    ({ c with auto_connect := auto_connect, ws_url := pyStrip ws_url, connected := false },
     c.loop_running)
  else ({ c with auto_connect := auto_connect }, false)

/-! ## Reconnect backoff (`WSPushClient._connect`, failure branch)

Delays are exact rationals: the code's floats (`1.0`, `30.0`, and the
doublings) are all dyadic, so `ℚ` mirrors the float arithmetic exactly. -/

/-- The cap `self.max_reconnect_attempts`. -/
def max_reconnect_attempts : Nat := 10

/-- The failure branch of `_connect`: given the current attempt counter and
the configured base/cap delays, returns the updated counter and the time
slept before the next loop iteration.  When auto-connect is on and the
counter is under the cap, the counter is incremented *before* the delay is
computed as `min(base * 2^(attempts-1), cap)`; otherwise the code falls to
the fixed `asyncio.sleep(1.0)`. -/
def connect_failure_backoff (auto_connect : Bool) (attempts : Nat)
    (base cap : ℚ) : Nat × ℚ :=
  if auto_connect ∧ attempts < max_reconnect_attempts then
    let a := attempts + 1
    (a, min (base * 2 ^ (a - 1)) cap)
  else (attempts, 1)

/-- The attempt counter after `k` consecutive failed connects starting from
a fresh (or just-reset) client: `reconnect_attempts = 0`, base delay `1.0`,
cap `30.0`, auto-connect on.  (`reconnect_delay` is only ever assigned
`1.0` — in `__init__` and on successful connect — so the base stays 1s.) -/
def attemptsAfterFails : Nat → Nat
  | 0 => 0
  | k + 1 => (connect_failure_backoff true (attemptsAfterFails k) 1 30).1

/-- The delay slept after the `k`-th consecutive failure (`k ≥ 1`),
starting from a fresh counter. -/
def delayOfFail (k : Nat) : ℚ :=
  (connect_failure_backoff true (attemptsAfterFails (k - 1)) 1 30).2

/-! ## `json.dumps` (default options: `ensure_ascii=True`,
separators `", "` and `": "`), as used by `serialize_message`,
`ws.send_json`, and both relay handlers. -/

/-- Lowercase hexadecimal digit, as CPython's encoder emits. -/
def hexDigitChar (n : Nat) : Char :=
  Char.ofNat (if n < 10 then 48 + n else 87 + n)

/-- Four hex digits, most significant first. -/
def toHex4 (n : Nat) : List Char :=
  [hexDigitChar (n / 16 / 16 / 16 % 16), hexDigitChar (n / 16 / 16 % 16),
   hexDigitChar (n / 16 % 16), hexDigitChar (n % 16)]

/-- A `\uXXXX` escape. -/
def uEscape (n : Nat) : List Char := '\\' :: 'u' :: toHex4 n

/-- One character of a string, escaped the way the default
(`ensure_ascii`) encoder does: `"` and `\` are backslash-escaped;
`\b \t \n \f \r` get their short escapes; every other character outside
`0x20..0x7e` becomes `\uXXXX`, with a surrogate pair above `0xFFFF`. -/
def escapeChar (c : Char) : List Char :=
  let n := c.toNat
  if c = '"' then ['\\', '"']
  else if c = '\\' then ['\\', '\\']
  else if n = 8 then ['\\', 'b']
  else if n = 9 then ['\\', 't']
  else if n = 10 then ['\\', 'n']
  else if n = 12 then ['\\', 'f']
  else if n = 13 then ['\\', 'r']
  else if 0x20 ≤ n ∧ n ≤ 0x7e then [c]
  else if n < 0x10000 then uEscape n
  else uEscape (0xD800 + (n - 0x10000) / 1024) ++
       uEscape (0xDC00 + (n - 0x10000) % 1024)

/-- Escape every character of a string body. -/
def escapeList : List Char → List Char
  | [] => []
  | c :: cs => escapeChar c ++ escapeList cs

/-- A rendered JSON string: quote, escaped body, quote. -/
def dumpStringChars (s : String) : List Char :=
  '"' :: (escapeList s.data ++ ['"'])

/-- Decimal digits of a natural number, most significant first. -/
def natDigits (n : Nat) : List Char :=
  if h : n < 10 then [Char.ofNat (48 + n)]
  else natDigits (n / 10) ++ [Char.ofNat (48 + n % 10)]
termination_by n
decreasing_by exact Nat.div_lt_self (by omega) (by omega)

/-- An integer as Python's `repr` writes it: optional minus, digits. -/
def intChars (i : Int) : List Char :=
  if i < 0 then '-' :: natDigits i.natAbs else natDigits i.natAbs

mutual

/-- Rendering of `json.dumps` of a value, to characters.  Item separator `", "`,
key separator `": "` — the defaults when no `indent` is given. -/
def dumpValue : JValue → List Char
  | .null => "null".data
  | .bool true => "true".data
  | .bool false => "false".data
  | .num i => intChars i
  | .str s => dumpStringChars s
  | .arr es => '[' :: dumpElems es ++ [']']
  | .obj ms => '{' :: dumpMembers ms ++ ['}']

def dumpElems : List JValue → List Char
  | [] => []
  | [e] => dumpValue e
  | e :: es => dumpValue e ++ ',' :: ' ' :: dumpElems es

def dumpMembers : List (String × JValue) → List Char
  | [] => []
  | [(k, v)] => dumpStringChars k ++ ':' :: ' ' :: dumpValue v
  | (k, v) :: ms =>
      dumpStringChars k ++ ':' :: ' ' :: dumpValue v ++ ',' :: ' ' :: dumpMembers ms

end

/-- Rendering of `json.dumps`, returning a string. -/
def json_dumps (v : JValue) : String := String.mk (dumpValue v)

/-! ## `json.loads`, as used by `deserialize_message` and both relay
handlers.  A recursive-descent parser mirroring CPython's scanner:
whitespace ` \t\n\r` between tokens, string keys only, strict mode
(raw control characters inside strings are rejected), `\uXXXX` escapes
with surrogate-pair recombination.  Scope notes: numbers are integer
literals (no protocol field is a float, and no claim touches one);
escape sequences decoding to a lone surrogate are rejected rather than
producing a lone-surrogate string, since such strings have no
representative in the model's (well-formed) `String` type. -/

/-- ASCII decimal digit test. -/
def isDigitC (c : Char) : Bool := 48 ≤ c.toNat && c.toNat ≤ 57

/-- Skip JSON whitespace. -/
def skipWs : List Char → List Char
  | c :: cs =>
      if c = ' ' ∨ c = '\t' ∨ c = '\n' ∨ c = '\r' then skipWs cs else c :: cs
  | [] => []

/-- Value of one hexadecimal digit. -/
def hexVal (c : Char) : Option Nat :=
  if 48 ≤ c.toNat ∧ c.toNat ≤ 57 then some (c.toNat - 48)
  else if 97 ≤ c.toNat ∧ c.toNat ≤ 102 then some (c.toNat - 87)
  else if 65 ≤ c.toNat ∧ c.toNat ≤ 70 then some (c.toNat - 55)
  else none

/-- Four hex digits to their value. -/
def parseHex4 : List Char → Option (Nat × List Char)
  | a :: b :: c :: d :: rest =>
      match hexVal a, hexVal b, hexVal c, hexVal d with
      | some va, some vb, some vc, some vd =>
          some (va * 4096 + vb * 256 + vc * 16 + vd, rest)
      | _, _, _, _ => none
  | _ => none

/-- Prepend a decoded character to a string-body parse result. -/
def strCons (c : Char) (r : Option (List Char × List Char)) :
    Option (List Char × List Char) :=
  r.map (fun p => (c :: p.1, p.2))

/-- Parse a string body after the opening quote, up to and including the
closing quote.  Fuel is one unit per decoded character; callers pass the
input length, which always suffices. -/
def parseStrBody : Nat → List Char → Option (List Char × List Char)
  | 0, _ => none
  | _ + 1, [] => none
  | fuel + 1, c :: cs =>
    if c = '"' then some ([], cs)
    else if c = '\\' then
      match cs with
      | [] => none
      | e :: cs2 =>
        if e = '"' then strCons '"' (parseStrBody fuel cs2)
        else if e = '\\' then strCons '\\' (parseStrBody fuel cs2)
        else if e = '/' then strCons '/' (parseStrBody fuel cs2)
        else if e = 'b' then strCons (Char.ofNat 8) (parseStrBody fuel cs2)
        else if e = 'f' then strCons (Char.ofNat 12) (parseStrBody fuel cs2)
        else if e = 'n' then strCons '\n' (parseStrBody fuel cs2)
        else if e = 'r' then strCons '\r' (parseStrBody fuel cs2)
        else if e = 't' then strCons '\t' (parseStrBody fuel cs2)
        else if e = 'u' then
          match parseHex4 cs2 with
          | none => none
          | some (n, cs3) =>
            if n < 0xD800 ∨ 0xE000 ≤ n then
              strCons (Char.ofNat n) (parseStrBody fuel cs3)
            else if n < 0xDC00 then
              match cs3 with
              | c1 :: c2 :: cs4 =>
                if c1 = '\\' ∧ c2 = 'u' then
                  match parseHex4 cs4 with
                  | some (m, cs5) =>
                    if 0xDC00 ≤ m ∧ m < 0xE000 then
                      strCons (Char.ofNat (0x10000 + (n - 0xD800) * 1024 + (m - 0xDC00)))
                        (parseStrBody fuel cs5)
                    else none
                  | none => none
                else none
              | _ => none
            else none
        else none
    else if c.toNat < 0x20 then none
    else strCons c (parseStrBody fuel cs)

/-- Take a maximal run of decimal digits. -/
def takeDigits : List Char → List Char × List Char
  | [] => ([], [])
  | c :: cs =>
      let p := takeDigits cs
      if isDigitC c then (c :: p.1, p.2) else ([], c :: cs)

/-- Digits to their value, most significant first. -/
def digitsToNat (ds : List Char) : Nat :=
  ds.foldl (fun acc c => acc * 10 + (c.toNat - 48)) 0

/-- The digit run of a number after the optional sign: `0` or a nonzero
digit followed by digits.  A following `.`/`e`/`E` would start a float
literal, which is outside the model's scope — the parser rejects it. -/
def parseNumAbs (neg : Bool) (cs1 : List Char) : Option (Int × List Char) :=
  match takeDigits cs1 with
  | ([], _) => none
  | (d :: ds, rest) =>
    if d = '0' ∧ ds ≠ [] then none
    else if rest.head?.any (fun c => c = '.' || c = 'e' || c = 'E') then none
    else some ((if neg then -1 else 1) * (digitsToNat (d :: ds) : Int), rest)

/-- Parse an integer JSON number: optional minus, then the digit run. -/
def parseNumber (cs : List Char) : Option (Int × List Char) :=
  match cs with
  | [] => none
  | c :: r => if c = '-' then parseNumAbs true r else parseNumAbs false (c :: r)

/-- Assignment into an object under construction, as a Python dict does
it: a repeated key keeps its first position and takes the new value. -/
def objInsert : List (String × JValue) → String → JValue → List (String × JValue)
  | [], k, v => [(k, v)]
  | (k0, v0) :: rest, k, v =>
      if k0 = k then (k0, v) :: rest else (k0, v0) :: objInsert rest k v

mutual

/-- Parse one JSON value, skipping leading whitespace. -/
def parseValue : Nat → List Char → Option (JValue × List Char)
  | 0, _ => none
  | fuel + 1, cs =>
    match skipWs cs with
    | [] => none
    | c :: cs1 =>
      if c = '{' then
        match skipWs cs1 with
        | c2 :: cs2 =>
            if c2 = '}' then some (.obj [], cs2)
            else (parseMembers fuel [] (c2 :: cs2)).map
              (fun p => (JValue.obj p.1, p.2))
        | [] => none
      else if c = '[' then
        match skipWs cs1 with
        | c2 :: cs2 =>
            if c2 = ']' then some (.arr [], cs2)
            else (parseElems fuel (c2 :: cs2)).map
              (fun p => (JValue.arr p.1, p.2))
        | [] => none
      else if c = '"' then
        (parseStrBody (cs1.length + 1) cs1).map
          (fun p => (JValue.str (String.mk p.1), p.2))
      else if c = 'n' then
        match cs1 with
        | 'u' :: 'l' :: 'l' :: r => some (.null, r)
        | _ => none
      else if c = 't' then
        match cs1 with
        | 'r' :: 'u' :: 'e' :: r => some (.bool true, r)
        | _ => none
      else if c = 'f' then
        match cs1 with
        | 'a' :: 'l' :: 's' :: 'e' :: r => some (.bool false, r)
        | _ => none
      else
        (parseNumber (c :: cs1)).map (fun p => (JValue.num p.1, p.2))

/-- Parse one-or-more comma-separated array elements up to `]`. -/
def parseElems : Nat → List Char → Option (List JValue × List Char)
  | 0, _ => none
  | fuel + 1, cs =>
    match parseValue fuel cs with
    | none => none
    | some (v, r) =>
      match skipWs r with
      | c2 :: r2 =>
          if c2 = ',' then (parseElems fuel r2).map (fun p => (v :: p.1, p.2))
          else if c2 = ']' then some ([v], r2)
          else none
      | [] => none

/-- Parse one-or-more `"key": value` members up to `}`, assigning each
into the accumulator like a dict build-up. -/
def parseMembers : Nat → List (String × JValue) → List Char →
    Option (List (String × JValue) × List Char)
  | 0, _, _ => none
  | fuel + 1, acc, cs =>
    match skipWs cs with
    | c0 :: cs1 =>
      if c0 = '"' then
        match parseStrBody (cs1.length + 1) cs1 with
        | none => none
        | some (key, cs2) =>
          match skipWs cs2 with
          | c3 :: cs3 =>
            if c3 = ':' then
              match parseValue fuel cs3 with
              | none => none
              | some (v, cs4) =>
                match skipWs cs4 with
                | c5 :: cs5 =>
                    if c5 = ',' then
                      parseMembers fuel (objInsert acc (String.mk key) v) cs5
                    else if c5 = '}' then
                      some (objInsert acc (String.mk key) v, cs5)
                    else none
                | [] => none
            else none
          | [] => none
      else none
    | [] => none

end

/-- Model of `json.loads`: parse one document and insist nothing but whitespace
follows (`Extra data` otherwise).  `none` stands for the raised
`JSONDecodeError`. -/
def json_loads (s : String) : Option JValue :=
  match parseValue (s.data.length + 1) s.data with
  | some (v, rest) => if skipWs rest = [] then some v else none
  | none => none

/-! ## The message codec (`protocol.py`) -/

/-- The set `required_keys` in `validate_message`. -/
def required_keys : List String := ["viewer_id", "image_webp", "timestamp"]

/-- Model of `validate_message`: `isinstance(data, dict)` and the three required
keys are a subset of `data.keys()`.  (Values are not inspected.) -/
def validate_message : JValue → Bool
  | .obj kvs => required_keys.all (fun k => hasKey kvs k)
  | _ => false

/-- Modelled from the spec (for comparison with `validate_message`, whose
source checks only key presence): true iff the candidate is a mapping
containing all three required keys *with non-null values*. -/
def spec_validate : JValue → Bool
  | .obj kvs =>
      required_keys.all (fun k =>
        kvs.any (fun p => p.1 = k && !(match p.2 with | .null => true | _ => false)))
  | _ => false

/-- Model of `serialize_message`: `json.dumps(message)`. -/
def serialize_message (m : JValue) : String := json_dumps m

/-- Model of `deserialize_message`: `json.loads`, then `validate_message`; any
parse failure or failed validation yields the `None` sentinel, nothing
propagates. -/
def deserialize_message (s : String) : Option JValue :=
  match json_loads s with
  | some d => if validate_message d then some d else none
  | none => none

/-- A wire message as `create_image_push_message` shapes it: string
viewer id, string image payload, integer timestamp. -/
structure Message where
  viewer_id : String
  image_webp : String
  timestamp : Int

/-- The dict a `Message` denotes, in the field order the producer
builds it. -/
def Message.toJValue (m : Message) : JValue :=
  .obj [("viewer_id", .str m.viewer_id),
        ("image_webp", .str m.image_webp),
        ("timestamp", .num m.timestamp)]

/-! ## The relay handlers

Two websocket endpoints exist: `viewer_websocket` in `viewer_routes.py`
(registered on the ComfyUI server, set `viewer_connections`) and
`websocket_handler` in `viewer_service/server.py` (the standalone
service, set `connected_clients`).  Connections are modelled by numeric
handles; a connection set is a duplicate-free list; a failure oracle
`fails` says which `send_str` calls raise. -/

/-- The one-time acknowledgement `ws.send_json({'type': 'status',
'message': 'Connected to Image Viewer'})` sends, serialized with the
default dumps exactly as aiohttp does. -/
def status_frame : String :=
  json_dumps (.obj [("type", .str "status"),
                    ("message", .str "Connected to Image Viewer")])

/-- Set insertion, `connected_clients.add(ws)` or `viewer_connections.add(ws)`:
set insertion. -/
def setAdd (conns : List Nat) (c : Nat) : List Nat :=
  if conns.contains c then conns else conns ++ [c]

/-- Accepting a connection in `viewer_routes.viewer_websocket`: add to
the set, then send the status frame to the new peer (and only it). The
second component lists every frame sent, with its recipient. -/
def viewer_routes_accept (conns : List Nat) (c : Nat) :
    List Nat × List (Nat × String) :=
  (setAdd conns c, [(c, status_frame)])

/-- Accepting a connection in `viewer_service.server.websocket_handler`:
add to the set and proceed straight to the receive loop — no
acknowledgement frame is sent. -/
def server_accept (conns : List Nat) (c : Nat) :
    List Nat × List (Nat × String) :=
  (setAdd conns c, [])

/-- The per-connection send loop of a broadcast: try `send_str` on every
member in turn; a raising send puts that member into `disconnected`
instead of failing the loop.  Returns (receivers, disconnected). -/
def broadcast_attempts : List Nat → (Nat → Bool) → List Nat × List Nat
  | [], _ => ([], [])
  | c :: cs, fails =>
    let (d, disc) := broadcast_attempts cs fails
    if fails c then (d, c :: disc) else (c :: d, disc)

/-- A full broadcast: the send loop, then the sweep discarding every
marked connection from the set.  Total — per-send exceptions are
absorbed, nothing reaches the caller. -/
def broadcast_sweep (conns : List Nat) (fails : Nat → Bool) :
    List Nat × List Nat :=
  let (delivered, disconnected) := broadcast_attempts conns fails
  (delivered, conns.filter (fun c => ¬ disconnected.contains c))

/-- The structure check inlined in `server.py`'s text-frame branch:
`isinstance(data, dict) and all(k in data for k in ("viewer_id",
"image_webp", "timestamp"))`. -/
def server_frame_check : JValue → Bool
  | .obj kvs =>
      ["viewer_id", "image_webp", "timestamp"].all (fun k => hasKey kvs k)
  | _ => false

/-- Model of the `server.py` `websocket_handler` on one TEXT frame: parse; on a decode
error log and keep looping (set untouched); on a failed structure check
`continue` (set untouched); otherwise re-serialize and broadcast with
the sweep.  Result: (payload broadcast if any, receivers, new set). -/
def server_on_text (conns : List Nat) (fails : Nat → Bool) (text : String) :
    Option String × List Nat × List Nat :=
  match json_loads text with
  | none => (none, [], conns)
  | some data =>
    if server_frame_check data then
      let (delivered, newConns) := broadcast_sweep conns fails
      (some (json_dumps data), delivered, newConns)
    else (none, [], conns)

/-- The names `viewer_routes.py` binds at module level (`import json`,
`import os`, `from pathlib import Path`, `from aiohttp import web`,
`from server import PromptServer`, plus its own globals).  `aiohttp`
itself is never imported. -/
def viewer_routes_module_names : List String :=
  ["json", "os", "Path", "web", "PromptServer",
   "server_instance", "viewer_connections",
   "serve_viewer_page", "serve_viewer_static", "viewer_websocket"]

/-- The structure check inlined in `viewer_routes.py`'s broadcast
branch: `isinstance(data, dict) and 'viewer_id' in data` — only the one
key. -/
def viewer_routes_frame_check : JValue → Bool
  | .obj kvs => hasKey kvs "viewer_id"
  | _ => false

/-- Model of the `viewer_routes.py` `viewer_websocket` on one received frame from
`sender`.  The loop body first evaluates `msg.type ==
aiohttp.WSMsgType.TEXT`; `aiohttp` is not among the module's names, so
the lookup raises `NameError`, the handler-level `except` catches it,
the `finally` discards the sender from the set, and the handler
returns — so the guarded branch below it (parse, check `viewer_id`,
broadcast, sweep) is unreachable as the module stands. -/
def viewer_routes_on_frame (conns : List Nat) (sender : Nat)
    (fails : Nat → Bool) (text : String) :
    Option String × List Nat × List Nat :=
  if viewer_routes_module_names.contains "aiohttp" then
    match json_loads text with
    | none => (none, [], conns)
    | some data =>
      if viewer_routes_frame_check data then
        let (delivered, newConns) := broadcast_sweep conns fails
        (some (json_dumps data), delivered, newConns)
      else (none, [], conns)
  else
    (none, [], conns.filter (fun c => c ≠ sender))

/-! ## Push client: backoff (C1) -/

/-- The attempt counter saturates at the cap over consecutive failures. -/
theorem attemptsAfterFails_eq (k : Nat) : attemptsAfterFails k = min k 10 := by
  induction k with
  | zero => rfl
  | succ n ih =>
      simp only [attemptsAfterFails, ih, connect_failure_backoff,
        max_reconnect_attempts]
      split_ifs <;> simp_all <;> omega

/-- C1: while auto-connect is on and the counter (incremented before the
sleep) stays within the 10-attempt cap, a failed connect sleeps
`min(1s·2^(attempts-1), 30s)` — concretely 1s, 2s, 4s, 8s, 16s for the
first five failures, then 30s up to the tenth — and once 10 attempts
have been reached every further failure sleeps a fixed 1s. -/
theorem C1_reconnect_backoff (a k : Nat) :
    (a + 1 ≤ max_reconnect_attempts →
      connect_failure_backoff true a 1 30 =
        (a + 1, min ((1 : ℚ) * 2 ^ (a + 1 - 1)) 30)) ∧
    (10 ≤ a → connect_failure_backoff true a 1 30 = (a, 1)) ∧
    (1 ≤ k → k ≤ 10 →
      delayOfFail k = (if k ≤ 5 then (2 : ℚ) ^ (k - 1) else 30)) ∧
    (11 ≤ k → delayOfFail k = 1) := by
  refine ⟨?_, ?_, ?_, ?_⟩
  · intro h
    have ha : a < 10 := by
      simp [max_reconnect_attempts] at h
      omega
    simp [connect_failure_backoff, max_reconnect_attempts, ha]
  · intro h
    simp [connect_failure_backoff, max_reconnect_attempts, Nat.not_lt.mpr h]
  · intro h1 h10
    interval_cases k <;> norm_num [delayOfFail, attemptsAfterFails,
      connect_failure_backoff, max_reconnect_attempts]
  · intro h
    have h1 : attemptsAfterFails (k - 1) = 10 := by
      rw [attemptsAfterFails_eq]; omega
    simp [delayOfFail, h1, connect_failure_backoff, max_reconnect_attempts]

/-- Witness for C1 at concrete attempt counts. -/
theorem C1_reconnect_backoff_witness :
    connect_failure_backoff true 2 1 30 = (3, min ((1 : ℚ) * 2 ^ 2) 30) ∧
    connect_failure_backoff true 10 1 30 = (10, 1) ∧
    delayOfFail 6 = 30 ∧ delayOfFail 11 = 1 := by
  obtain ⟨h1, -, h3, -⟩ := C1_reconnect_backoff 2 6
  obtain ⟨-, h2, -, h4⟩ := C1_reconnect_backoff 10 11
  refine ⟨h1 (by decide), h2 (by decide), ?_, h4 (by decide)⟩
  simpa using h3 (by decide) (by decide)

/-! ## Push client: enqueue (C8, C10) -/

/-- C8: `push_message` never raises (it is a total function); it returns
`False` leaving the queue untouched when the client is not running or
when `put_nowait` rejects the item, and returns `True` having appended
the message to the back of the queue otherwise. -/
theorem C8_push_message (c : WSPushClient) (m : JValue) :
    (c.running = false → push_message c m = (false, c)) ∧
    (c.running = true →
      put_nowait c.queue_maxsize c.message_queue m = none →
      push_message c m = (false, c)) ∧
    (c.running = true →
      put_nowait c.queue_maxsize c.message_queue m ≠ none →
      push_message c m =
        (true, { c with message_queue := c.message_queue ++ [m] })) := by
  refine ⟨?_, ?_, ?_⟩
  · intro hr
    simp [push_message, hr]
  · intro hr hn
    simp [push_message, hr, hn]
  · intro hr hn
    have hs : put_nowait c.queue_maxsize c.message_queue m =
        some (c.message_queue ++ [m]) := by
      by_cases hp : c.queue_maxsize = 0 ∨
          c.message_queue.length < c.queue_maxsize
      · simp [put_nowait, hp]
      · exact absurd (by simp [put_nowait, hp]) hn
    simp [push_message, hr, hs]

/-- Witness for C8: a running client enqueues; a stopped one drops. -/
theorem C8_push_message_witness :
    push_message { initClient "u" true with running := true } JValue.null =
      (true, { { initClient "u" true with running := true } with
               message_queue := [JValue.null] }) ∧
    push_message (initClient "u" true) JValue.null =
      (false, initClient "u" true) := by
  obtain ⟨-, -, h3⟩ :=
    C8_push_message { initClient "u" true with running := true } JValue.null
  obtain ⟨h1, -, -⟩ := C8_push_message (initClient "u" true) JValue.null
  refine ⟨?_, h1 rfl⟩
  simpa [initClient] using h3 rfl (by simp [put_nowait, initClient])

/-- C10: the client's queue is constructed without a capacity bound
(`Queue()`, `maxsize = 0`), so `put_nowait` always accepts and
`push_message`'s result is exactly the `running` flag. -/
theorem C10_push_result_eq_running (c : WSPushClient) (m : JValue)
    (h : c.queue_maxsize = 0) :
    (push_message c m).1 = c.running ∧
    put_nowait c.queue_maxsize c.message_queue m =
      some (c.message_queue ++ [m]) ∧
    ∀ url ac, (initClient url ac).queue_maxsize = 0 := by
  have hs : put_nowait c.queue_maxsize c.message_queue m =
      some (c.message_queue ++ [m]) := by
    simp [put_nowait, h]
  refine ⟨?_, hs, fun url ac => rfl⟩
  by_cases hr : c.running <;> simp [push_message, hr, hs]

/-- Witness for C10 on a fresh running client. -/
theorem C10_push_result_eq_running_witness :
    (push_message { initClient "u" true with running := true }
        JValue.null).1 = true := by
  exact (C10_push_result_eq_running
    { initClient "u" true with running := true } JValue.null rfl).1

/-! ## Push client: `update_config` (C9) -/

/-- C9: `update_config` leaves the pending queue (and `running`,
`reconnect_attempts`, the queue bound, the loop flag, and the handle)
unchanged in every case and always stores the auto-connect flag; and
when the stripped new endpoint is non-empty and differs from the stored
one while the background loop runs, it stores the new endpoint, clears
`connected`, and requests closure of the open connection — the
scheduled `_close_ws_only` then clears only the handle. -/
theorem C9_update_config (c : WSPushClient) (url : String) (ac : Bool) :
    ((update_config c url ac).1.message_queue = c.message_queue) ∧
    ((update_config c url ac).1.running = c.running) ∧
    ((update_config c url ac).1.reconnect_attempts = c.reconnect_attempts) ∧
    ((update_config c url ac).1.queue_maxsize = c.queue_maxsize) ∧
    ((update_config c url ac).1.loop_running = c.loop_running) ∧
    ((update_config c url ac).1.ws = c.ws) ∧
    ((update_config c url ac).1.auto_connect = ac) ∧
    ((close_ws_only (update_config c url ac).1).message_queue =
      c.message_queue) ∧
    (close_ws_only (update_config c url ac).1 =
      { (update_config c url ac).1 with ws := none }) ∧
    (pyStrip url ≠ "" → pyStrip url ≠ c.ws_url → c.loop_running = true →
      (update_config c url ac).1.ws_url = pyStrip url ∧
      (update_config c url ac).1.connected = false ∧
      (update_config c url ac).2 = true) := by
  unfold update_config close_ws_only
  split_ifs with hch
  · exact ⟨rfl, rfl, rfl, rfl, rfl, rfl, rfl, rfl, rfl,
      fun _ _ h3 => ⟨rfl, rfl, h3⟩⟩
  · exact ⟨rfl, rfl, rfl, rfl, rfl, rfl, rfl, rfl, rfl,
      fun h1 h2 _ => absurd ⟨h1, h2⟩ hch⟩

/-- Witness for C9: changing the endpoint of a running client. -/
theorem C9_update_config_witness :
    (update_config { initClient "a" true with loop_running := true }
        "b" false).1.ws_url = "b" ∧
    (update_config { initClient "a" true with loop_running := true }
        "b" false).1.connected = false ∧
    (update_config { initClient "a" true with loop_running := true }
        "b" false).2 = true ∧
    (update_config { initClient "a" true with loop_running := true }
        "b" false).1.message_queue = [] := by
  obtain ⟨hq, -, -, -, -, -, -, -, -, himp⟩ :=
    C9_update_config { initClient "a" true with loop_running := true }
      "b" false
  obtain ⟨h1, h2, h3⟩ := himp (by decide) (by decide) rfl
  have htrim : pyStrip "b" = "b" := rfl
  exact ⟨htrim ▸ h1, h2, h3, hq⟩

/-! ## Relay: broadcast sweep (C5) -/

/-- The send loop splits the set into receivers and failures. -/
theorem broadcast_attempts_eq (conns : List Nat) (fails : Nat → Bool) :
    broadcast_attempts conns fails =
      (conns.filter (fun c => !fails c), conns.filter fails) := by
  induction conns with
  | nil => rfl
  | cons c cs ih =>
      cases h : fails c <;>
        simp [broadcast_attempts, ih, List.filter_cons, h]

/-- C5: when exactly one member's send raises, the broadcast still
reaches every other member, absorbs the exception (the sweep is a total
function), and afterwards the set is the old one without the failed
member — the other `N-1` remain. -/
theorem C5_broadcast_failure_isolation (conns : List Nat) (f : Nat)
    (fails : Nat → Bool) (hnd : conns.Nodup) (hmem : f ∈ conns)
    (hf : ∀ c ∈ conns, (fails c = true ↔ c = f)) :
    (broadcast_sweep conns fails).1 = conns.erase f ∧
    (∀ c ∈ conns, c ≠ f → c ∈ (broadcast_sweep conns fails).1) ∧
    (broadcast_sweep conns fails).2 = conns.erase f ∧
    f ∉ (broadcast_sweep conns fails).2 ∧
    (broadcast_sweep conns fails).1.length = conns.length - 1 := by
  have hfilter : conns.filter (fun c => !fails c) =
      conns.filter (fun x => x != f) := by
    apply List.filter_congr
    intro c hc
    have := hf c hc
    by_cases hcf : c = f <;> simp [hcf] at this ⊢ <;> simp [this, hcf]
  have herase : conns.filter (fun x => x != f) = conns.erase f :=
    (List.Nodup.erase_eq_filter hnd f).symm
  have hdisc : conns.filter fails = conns.filter (fun c => c = f) := by
    apply List.filter_congr
    intro c hc
    have := hf c hc
    by_cases hcf : c = f <;> simp [hcf] at this ⊢ <;> simp [this, hcf]
  have hba := broadcast_attempts_eq conns fails
  have hsweep1 : (broadcast_sweep conns fails).1 = conns.erase f := by
    simp only [broadcast_sweep, hba]
    rw [hfilter, herase]
  have hsweep2 : (broadcast_sweep conns fails).2 = conns.erase f := by
    simp only [broadcast_sweep, hba]
    rw [← herase]
    apply List.filter_congr
    intro c hc
    simp only [hdisc, List.elem_iff, List.mem_filter, decide_eq_true_eq]
    by_cases hcf : c = f <;> simp [hcf, hc, hmem]
  refine ⟨hsweep1, ?_, hsweep2, ?_, ?_⟩
  · intro c hc hne
    rw [hsweep1]
    exact (List.Nodup.mem_erase_iff hnd).mpr ⟨hne, hc⟩
  · rw [hsweep2]
    simp [List.Nodup.mem_erase_iff hnd]
  · rw [hsweep1, List.length_erase_of_mem hmem]

/-- Witness for C5: three connections, the middle one failing. -/
theorem C5_broadcast_failure_isolation_witness :
    (broadcast_sweep [1, 2, 3] (fun c => c == 2)).1 = [1, 3] ∧
    (broadcast_sweep [1, 2, 3] (fun c => c == 2)).2 = [1, 3] ∧
    2 ∉ (broadcast_sweep [1, 2, 3] (fun c => c == 2)).2 := by
  obtain ⟨h1, -, h3, h4, -⟩ :=
    C5_broadcast_failure_isolation [1, 2, 3] 2 (fun c => c == 2)
      (by decide) (by decide) (by decide)
  exact ⟨by simpa using h1, by simpa using h3, h4⟩

/-! ## Relay: per-frame processing (C6) -/

/-- The inline structure check of `server.py` agrees with the codec's
`validate_message`. -/
theorem server_frame_check_eq_validate (v : JValue) :
    server_frame_check v = validate_message v := by
  cases v <;> rfl

/-- Counterexample to C6: a fully valid frame produces *no* broadcast on
the integrated route and the sender is dropped (the handler's
`aiohttp.WSMsgType` lookup raises `NameError`); likewise a non-JSON
frame drops the sender instead of leaving it connected. -/
theorem C6_counterexample :
    deserialize_message
        "\x7b\"viewer_id\": \"v\", \"image_webp\": \"i\", \"timestamp\": 1\x7d" ≠
      none ∧
    viewer_routes_on_frame [7] 7 (fun _ => false)
        "\x7b\"viewer_id\": \"v\", \"image_webp\": \"i\", \"timestamp\": 1\x7d" =
      (none, [], []) ∧
    viewer_routes_on_frame [7] 7 (fun _ => false) "not json" =
      (none, [], []) := by
  have h : deserialize_message
      "\x7b\"viewer_id\": \"v\", \"image_webp\": \"i\", \"timestamp\": 1\x7d" =
      some (.obj [("viewer_id", .str "v"), ("image_webp", .str "i"),
                  ("timestamp", .num 1)]) := rfl
  exact ⟨by rw [h]; simp, rfl, rfl⟩

/-- C6 (amended): on the standalone service a broadcast happens iff the
frame parses to a dict holding all three keys, and an ignored frame
leaves the set unchanged; the integrated route as written never
broadcasts and removes the sender on every inbound frame. -/
theorem C6_amended_broadcast_iff (conns : List Nat) (sender : Nat)
    (fails : Nat → Bool) (text : String) :
    ((server_on_text conns fails text).1 ≠ none ↔
      (∃ v, json_loads text = some v ∧ validate_message v = true)) ∧
    ((server_on_text conns fails text).1 = none →
      (server_on_text conns fails text).2.2 = conns) ∧
    (viewer_routes_on_frame conns sender fails text).1 = none ∧
    (viewer_routes_on_frame conns sender fails text).2.2 =
      conns.filter (fun c => c ≠ sender) := by
  refine ⟨?_, ?_, rfl, rfl⟩
  · cases hjl : json_loads text with
    | none => simp [server_on_text, hjl]
    | some v =>
        cases hc : server_frame_check v with
        | false =>
            rw [server_frame_check_eq_validate] at hc
            simp [server_on_text, hjl, server_frame_check_eq_validate, hc]
        | true =>
            rw [server_frame_check_eq_validate] at hc
            simp [server_on_text, hjl, server_frame_check_eq_validate, hc]
  · cases hjl : json_loads text with
    | none => simp [server_on_text, hjl]
    | some v =>
        cases hc : server_frame_check v with
        | false => simp [server_on_text, hjl, hc]
        | true => simp [server_on_text, hjl, hc]

/-- Witness for C6 (amended) on a non-JSON frame. -/
theorem C6_amended_broadcast_iff_witness :
    (server_on_text [5] (fun _ => false) "not json").2.2 = [5] ∧
    (viewer_routes_on_frame [5] 5 (fun _ => false) "not json").2.2 = [] := by
  obtain ⟨-, h2, -, h4⟩ :=
    C6_amended_broadcast_iff [5] 5 (fun _ => false) "not json"
  exact ⟨h2 rfl, by simpa using h4⟩

/-! ## Relay: accept (C7) -/

/-- Counterexample to C7: the standalone service's accept sends no
status frame at all. -/
theorem C7_counterexample :
    (server_accept [] 0).1 = [0] ∧ (server_accept [] 0).2 = [] ∧
    (server_accept [] 0).2 ≠ [(0, status_frame)] := by
  refine ⟨rfl, rfl, ?_⟩
  simp [server_accept]

/-- C7 (amended): accepting a fresh connection grows the set by exactly
that connection on both endpoints; the integrated route then sends the
status frame to the new peer only, while the standalone service sends
nothing. -/
theorem C7_amended_accept (conns : List Nat) (c : Nat) (h : c ∉ conns) :
    (viewer_routes_accept conns c).1 = conns ++ [c] ∧
    (viewer_routes_accept conns c).2 = [(c, status_frame)] ∧
    (server_accept conns c).1 = conns ++ [c] ∧
    (server_accept conns c).2 = [] := by
  have hc : conns.contains c = false := by
    simpa using h
  simp [viewer_routes_accept, server_accept, setAdd, hc, h]

/-- Witness for C7 (amended). -/
theorem C7_amended_accept_witness :
    (viewer_routes_accept [3] 4).1 = [3, 4] ∧
    (viewer_routes_accept [3] 4).2 = [(4, status_frame)] ∧
    (server_accept [3] 4).1 = [3, 4] ∧
    (server_accept [3] 4).2 = [] := by
  simpa using C7_amended_accept [3] 4 (by decide)

/-! ## Codec: validation (C2) and malformed input (C4) -/

/-- Counterexample to C2: a mapping binding `viewer_id` to null is
accepted by `validate_message` (only key presence is checked), while
the spec's validation — requiring non-null values — rejects it. -/
theorem C2_counterexample :
    validate_message (.obj [("viewer_id", JValue.null),
      ("image_webp", .str "a"), ("timestamp", .num 1)]) = true ∧
    spec_validate (.obj [("viewer_id", JValue.null),
      ("image_webp", .str "a"), ("timestamp", .num 1)]) = false :=
  ⟨rfl, rfl⟩

/-- C2 (amended): `validate_message` returns true iff the candidate is
a mapping containing the three required keys — the bound values are
never inspected, so null values pass. -/
theorem C2_amended_validate (v : JValue) :
    validate_message v = true ↔
      ∃ kvs, v = JValue.obj kvs ∧ hasKey kvs "viewer_id" = true ∧
        hasKey kvs "image_webp" = true ∧ hasKey kvs "timestamp" = true := by
  cases v <;> simp [validate_message, required_keys]

/-- Counterexample to C4: a mapping whose fields all have the wrong
types is returned as-is by `deserialize_message`, not rejected. -/
theorem C4_counterexample :
    deserialize_message
        "\x7b\"viewer_id\": 1, \"image_webp\": 2, \"timestamp\": \"x\"\x7d" =
      some (.obj [("viewer_id", .num 1), ("image_webp", .num 2),
                  ("timestamp", .str "x")]) ∧
    deserialize_message
        "\x7b\"viewer_id\": 1, \"image_webp\": 2, \"timestamp\": \"x\"\x7d" ≠
      none := by
  have h : deserialize_message
      "\x7b\"viewer_id\": 1, \"image_webp\": 2, \"timestamp\": \"x\"\x7d" =
      some (.obj [("viewer_id", .num 1), ("image_webp", .num 2),
                  ("timestamp", .str "x")]) := rfl
  exact ⟨h, by rw [h]; simp⟩

/-- C4 (amended): `deserialize_message` is total (nothing propagates)
and returns the `None` sentinel exactly when the text fails to parse or
the decoded value fails validation — i.e. is missing a required key or
is not a mapping; wrong-typed fields alone do not make it `None`. -/
theorem C4_amended_deserialize (s : String) :
    (deserialize_message s = none ↔
      json_loads s = none ∨
        ∃ v, json_loads s = some v ∧ validate_message v = false) ∧
    deserialize_message "not json" = none ∧
    deserialize_message "\x7b\"viewer_id\": \"a\", \"timestamp\": 1\x7d" =
      none := by
  refine ⟨?_, rfl, rfl⟩
  cases hjl : json_loads s with
  | none => simp [deserialize_message, hjl]
  | some v =>
      cases hv : validate_message v <;>
        simp [deserialize_message, hjl, hv]

/-! ## Codec: round-trip machinery (towards C3)

The printer–parser inverse lemmas: hex digits, escaped characters,
string bodies, decimal integers, and finally the whole serialized
message. -/

/-- A hex digit prints and re-reads to itself. -/
theorem hexDigit_value : ∀ d : Nat, d < 16 → hexVal (hexDigitChar d) = some d := by
  intro d h
  interval_cases d <;> decide

/-- Four printed hex digits re-read to the printed value. -/
theorem parseHex4_toHex4 (n : Nat) (h : n < 65536) (t : List Char) :
    parseHex4 (toHex4 n ++ t) = some (n, t) := by
  have e1 := hexDigit_value (n / 16 / 16 / 16 % 16) (Nat.mod_lt _ (by norm_num))
  have e2 := hexDigit_value (n / 16 / 16 % 16) (Nat.mod_lt _ (by norm_num))
  have e3 := hexDigit_value (n / 16 % 16) (Nat.mod_lt _ (by norm_num))
  have e4 := hexDigit_value (n % 16) (Nat.mod_lt _ (by norm_num))
  simp only [toHex4, List.cons_append, List.nil_append, parseHex4,
    e1, e2, e3, e4]
  have hsum : n / 16 / 16 / 16 % 16 * 4096 + n / 16 / 16 % 16 * 256 +
      n / 16 % 16 * 16 + n % 16 = n := by omega
  rw [hsum]

/-- Every escape is at least one character long. -/
theorem one_le_escapeChar_length (c : Char) : 1 ≤ (escapeChar c).length := by
  simp only [escapeChar]
  split_ifs <;> simp [uEscape, toHex4]

/-- Escaping never shortens a string body. -/
theorem length_le_escapeList (cs : List Char) :
    cs.length ≤ (escapeList cs).length := by
  induction cs with
  | nil => simp [escapeList]
  | cons c cs ih =>
      have := one_le_escapeChar_length c
      simp only [escapeList, List.length_cons, List.length_append]
      omega

/-- The codepoint facts behind a `Char`: it avoids the surrogate range
and stays below `0x110000`. -/
theorem char_valid_nat (c : Char) :
    c.toNat < 55296 ∨ (57343 < c.toNat ∧ c.toNat < 1114112) := c.valid

/-- Parsing one escaped character undoes the escaping and costs one
unit of fuel. -/
theorem parseStrBody_escapeChar (c : Char) (t : List Char) (fuel : Nat) :
    parseStrBody (fuel + 1) (escapeChar c ++ t) =
      strCons c (parseStrBody fuel t) := by
  have hval := char_valid_nat c
  have hofn := Char.ofNat_toNat c
  by_cases h1 : c = '"'
  · subst h1; rfl
  by_cases h2 : c = '\\'
  · subst h2; rfl
  by_cases h8 : c.toNat = 8
  · have hc : Char.ofNat 8 = c := h8 ▸ hofn
    simp only [escapeChar, if_neg h1, if_neg h2, if_pos h8, List.cons_append]
    show strCons (Char.ofNat 8) (parseStrBody fuel t) = _
    rw [hc]
  by_cases h9 : c.toNat = 9
  · have hc : Char.ofNat 9 = c := h9 ▸ hofn
    simp only [escapeChar, if_neg h1, if_neg h2, if_neg h8, if_pos h9,
      List.cons_append]
    show strCons '\t' (parseStrBody fuel t) = _
    rw [show '\t' = Char.ofNat 9 from rfl, hc]
  by_cases h10 : c.toNat = 10
  · have hc : Char.ofNat 10 = c := h10 ▸ hofn
    simp only [escapeChar, if_neg h1, if_neg h2, if_neg h8, if_neg h9,
      if_pos h10, List.cons_append]
    show strCons '\n' (parseStrBody fuel t) = _
    rw [show '\n' = Char.ofNat 10 from rfl, hc]
  by_cases h12 : c.toNat = 12
  · have hc : Char.ofNat 12 = c := h12 ▸ hofn
    simp only [escapeChar, if_neg h1, if_neg h2, if_neg h8, if_neg h9,
      if_neg h10, if_pos h12, List.cons_append]
    show strCons (Char.ofNat 12) (parseStrBody fuel t) = _
    rw [hc]
  by_cases h13 : c.toNat = 13
  · have hc : Char.ofNat 13 = c := h13 ▸ hofn
    simp only [escapeChar, if_neg h1, if_neg h2, if_neg h8, if_neg h9,
      if_neg h10, if_neg h12, if_pos h13, List.cons_append]
    show strCons '\r' (parseStrBody fuel t) = _
    rw [show '\r' = Char.ofNat 13 from rfl, hc]
  by_cases hpr : 32 ≤ c.toNat ∧ c.toNat ≤ 126
  · -- printable, not quote, not backslash: kept verbatim
    simp only [escapeChar, if_neg h1, if_neg h2, if_neg h8, if_neg h9,
      if_neg h10, if_neg h12, if_neg h13, if_pos hpr, List.cons_append,
      List.nil_append]
    show parseStrBody (fuel + 1) (c :: t) = _
    simp only [parseStrBody, if_neg h1, if_neg h2,
      if_neg (by omega : ¬ c.toNat < 32)]
  have hstep : ∀ X : List Char, parseStrBody (fuel + 1) ('\\' :: 'u' :: X) =
      (match parseHex4 X with
       | none => none
       | some (n, cs3) =>
         if n < 0xD800 ∨ 0xE000 ≤ n then
           strCons (Char.ofNat n) (parseStrBody fuel cs3)
         else if n < 0xDC00 then
           (match cs3 with
            | c1 :: c2 :: cs4 =>
              if c1 = '\\' ∧ c2 = 'u' then
                (match parseHex4 cs4 with
                 | some (m, cs5) =>
                   if 0xDC00 ≤ m ∧ m < 0xE000 then
                     strCons
                       (Char.ofNat (0x10000 + (n - 0xD800) * 1024 + (m - 0xDC00)))
                       (parseStrBody fuel cs5)
                   else none
                 | none => none)
              else none
            | _ => none)
         else none) := fun X => rfl
  by_cases hbmp : c.toNat < 65536
  · -- one `\uXXXX` escape (control or BMP non-ASCII; never a surrogate)
    have hcond : c.toNat < 0xD800 ∨ 0xE000 ≤ c.toNat := by
      rcases hval with h | ⟨h, _⟩
      · exact Or.inl h
      · exact Or.inr (by omega)
    simp only [escapeChar, if_neg h1, if_neg h2, if_neg h8, if_neg h9,
      if_neg h10, if_neg h12, if_neg h13, if_neg hpr, if_pos hbmp, uEscape,
      List.cons_append, List.append_assoc]
    rw [hstep, parseHex4_toHex4 c.toNat hbmp t]
    try dsimp only
    rw [if_pos hcond, hofn]
  · -- a surrogate pair: high then low, recombined by the parser
    have hcn : c.toNat < 1114112 := by
      rcases hval with h | ⟨_, h⟩ <;> omega
    simp only [escapeChar, if_neg h1, if_neg h2, if_neg h8, if_neg h9,
      if_neg h10, if_neg h12, if_neg h13, if_neg hpr, if_neg hbmp, uEscape,
      List.cons_append, List.append_assoc]
    rw [hstep, parseHex4_toHex4 (0xD800 + (c.toNat - 0x10000) / 1024)
      (by omega) _]
    try dsimp only
    rw [if_neg (by omega), if_pos (by omega : 0xD800 +
      (c.toNat - 0x10000) / 1024 < 0xDC00)]
    try dsimp only
    rw [if_pos (⟨rfl, rfl⟩ : ('\\' : Char) = '\\' ∧ ('u' : Char) = 'u')]
    rw [parseHex4_toHex4 (0xDC00 + (c.toNat - 0x10000) % 1024)
      (by omega) t]
    try dsimp only
    rw [if_pos ⟨by omega, by omega⟩]
    have harith : 0x10000 +
        (0xD800 + (c.toNat - 0x10000) / 1024 - 0xD800) * 1024 +
        (0xDC00 + (c.toNat - 0x10000) % 1024 - 0xDC00) = c.toNat := by
      omega
    rw [harith, hofn]

/-- Parsing a fully escaped body recovers it, with any fuel beyond its
length. -/
theorem parseStrBody_escapeList (cs : List Char) :
    ∀ fuel rest, cs.length < fuel →
      parseStrBody fuel (escapeList cs ++ '"' :: rest) = some (cs, rest) := by
  induction cs with
  | nil =>
      intro fuel rest h
      obtain ⟨f, rfl⟩ : ∃ f, fuel = f + 1 := ⟨fuel - 1, by omega⟩
      rfl
  | cons c cs ih =>
      intro fuel rest h
      obtain ⟨f, rfl⟩ : ∃ f, fuel = f + 1 := ⟨fuel - 1, by omega⟩
      rw [escapeList, List.append_assoc, parseStrBody_escapeChar,
        ih f rest (by simp only [List.length_cons] at h; omega)]
      rfl

/-- A rendered string value parses back as that string. -/
theorem parseValue_str (fuel : Nat) (s : String) (rest : List Char) :
    parseValue (fuel + 1) ('"' :: (escapeList s.data ++ '"' :: rest)) =
      some (JValue.str s, rest) := by
  have hstep : ∀ X : List Char, parseValue (fuel + 1) ('"' :: X) =
      (parseStrBody (X.length + 1) X).map
        (fun p => (JValue.str (String.mk p.1), p.2)) := fun X => rfl
  have hlen : s.data.length < (escapeList s.data ++ '"' :: rest).length + 1 := by
    have h1 := length_le_escapeList s.data
    simp only [List.length_append, List.length_cons]
    omega
  rw [hstep, parseStrBody_escapeList s.data _ rest hlen]
  rfl

/-- A digit character read back: its test and its value. -/
theorem digitChar_isDigit (k : Nat) (hk : k < 10) :
    isDigitC (Char.ofNat (48 + k)) = true ∧
      (Char.ofNat (48 + k)).toNat = 48 + k := by
  interval_cases k <;> exact ⟨rfl, rfl⟩

/-- The decimal rendering of a natural number is never empty. -/
theorem natDigits_ne_nil (n : Nat) : natDigits n ≠ [] := by
  rw [natDigits.eq_def]
  split_ifs <;> simp

/-- Every character in a decimal rendering is a digit. -/
theorem natDigits_all_digits (n : Nat) :
    ∀ c ∈ natDigits n, isDigitC c = true := by
  induction n using Nat.strongRecOn with
  | _ n ih =>
    rw [natDigits.eq_def]
    split_ifs with h
    · intro c hc
      simp only [List.mem_singleton] at hc
      subst hc
      exact (digitChar_isDigit n h).1
    · intro c hc
      rcases List.mem_append.mp hc with h1 | h2
      · exact ih (n / 10) (Nat.div_lt_self (by omega) (by omega)) c h1
      · simp only [List.mem_singleton] at h2
        subst h2
        exact (digitChar_isDigit (n % 10) (Nat.mod_lt _ (by omega))).1

/-- Reading digits accumulates one more low digit per step. -/
theorem digitsToNat_append_digit (ds : List Char) (c : Char) :
    digitsToNat (ds ++ [c]) = digitsToNat ds * 10 + (c.toNat - 48) := by
  simp [digitsToNat, List.foldl_append]

/-- Reading back a decimal rendering yields the rendered number. -/
theorem digitsToNat_natDigits (n : Nat) : digitsToNat (natDigits n) = n := by
  induction n using Nat.strongRecOn with
  | _ n ih =>
    rw [natDigits.eq_def]
    split_ifs with h
    · simp [digitsToNat, (digitChar_isDigit n h).2]
    · rw [digitsToNat_append_digit,
        ih (n / 10) (Nat.div_lt_self (by omega) (by omega)),
        (digitChar_isDigit (n % 10) (Nat.mod_lt _ (by omega))).2]
      omega

/-- A decimal rendering starts with `'0'` only for zero itself. -/
theorem natDigits_head_zero (m : Nat) :
    ∀ ds, natDigits m = '0' :: ds → m = 0 ∧ ds = [] := by
  induction m using Nat.strongRecOn with
  | _ m ih =>
    intro ds h
    rw [natDigits.eq_def] at h
    split_ifs at h with h10
    · simp only [List.cons.injEq] at h
      obtain ⟨h1, h2⟩ := h
      have h3 := (digitChar_isDigit m h10).2
      have h4 : (Char.ofNat (48 + m)).toNat = '0'.toNat := by rw [h1]
      have h5 : '0'.toNat = 48 := rfl
      exact ⟨by omega, h2.symm⟩
    · obtain ⟨d, ds', hd⟩ : ∃ d ds', natDigits (m / 10) = d :: ds' := by
        cases hnd : natDigits (m / 10) with
        | nil => exact absurd hnd (natDigits_ne_nil _)
        | cons d ds' => exact ⟨d, ds', rfl⟩
      rw [hd] at h
      simp only [List.cons_append, List.cons.injEq] at h
      obtain ⟨hd0, -⟩ := h
      have := (ih (m / 10) (Nat.div_lt_self (by omega) (by omega)) ds'
        (hd0 ▸ hd)).1
      omega

/-- The rendering never trips the parser's leading-zero rejection. -/
theorem natDigits_no_leading_zero (n : Nat) (d : Char) (ds : List Char)
    (h : natDigits n = d :: ds) : ¬(d = '0' ∧ ds ≠ []) := by
  rintro ⟨rfl, hds⟩
  exact hds (natDigits_head_zero n ds h).2

/-- The run taken by `takeDigits` stops immediately on a non-digit (or empty) head. -/
theorem takeDigits_of_head_not_digit (rest : List Char)
    (h : ∀ c t, rest = c :: t → isDigitC c = false) :
    takeDigits rest = ([], rest) := by
  cases rest with
  | nil => rfl
  | cons c t => simp [takeDigits, h c t rfl]

/-- The run taken by `takeDigits` consumes exactly a leading digit run. -/
theorem takeDigits_run (ds rest : List Char)
    (hrest : takeDigits rest = ([], rest)) :
    (∀ c ∈ ds, isDigitC c = true) → takeDigits (ds ++ rest) = (ds, rest) := by
  induction ds with
  | nil =>
      intro
      rw [List.nil_append]
      exact hrest
  | cons c t ih =>
      intro hds
      have hstep : takeDigits (t ++ rest) = (t, rest) :=
        ih fun x hx => hds x (List.mem_cons_of_mem c hx)
      rw [List.cons_append, takeDigits, hstep,
        if_pos (hds c (List.mem_cons_self c t))]

/-- The rendered integer parses back whenever the remainder cannot
extend a number token. -/
theorem parseNumber_intChars (i : Int) (rest : List Char)
    (hrest : ∀ c t, rest = c :: t →
      isDigitC c = false ∧ c ≠ '.' ∧ c ≠ 'e' ∧ c ≠ 'E') :
    parseNumber (intChars i ++ rest) = some (i, rest) := by
  have hstop : takeDigits rest = ([], rest) :=
    takeDigits_of_head_not_digit rest (fun c t ht => (hrest c t ht).1)
  obtain ⟨d, ds, hdds⟩ : ∃ d ds, natDigits i.natAbs = d :: ds := by
    cases h : natDigits i.natAbs with
    | nil => exact absurd h (natDigits_ne_nil _)
    | cons d ds => exact ⟨d, ds, rfl⟩
  have htd : takeDigits (natDigits i.natAbs ++ rest) = (d :: ds, rest) := by
    have := takeDigits_run (natDigits i.natAbs) rest hstop
      (natDigits_all_digits _)
    rw [hdds] at this
    rw [hdds]
    exact this
  have hbool : rest.head?.any
      (fun c => c = '.' || c = 'e' || c = 'E') = false := by
    cases rest with
    | nil => rfl
    | cons c t =>
        obtain ⟨-, h1, h2, h3⟩ := hrest c t rfl
        simp [h1, h2, h3]
  have habs : ∀ neg : Bool, parseNumAbs neg (natDigits i.natAbs ++ rest) =
      some ((if neg then -1 else 1) * (i.natAbs : Int), rest) := by
    intro neg
    have hval : digitsToNat (d :: ds) = i.natAbs := by
      rw [← hdds, digitsToNat_natDigits]
    simp only [parseNumAbs, htd]
    rw [if_neg (natDigits_no_leading_zero _ _ _ hdds)]
    rw [if_neg (by simp [hbool])]
    rw [hval]
  by_cases hneg : i < 0
  · have harg : intChars i ++ rest = '-' :: (natDigits i.natAbs ++ rest) := by
      simp [intChars, hneg]
    have hcons : parseNumber ('-' :: (natDigits i.natAbs ++ rest)) =
        parseNumAbs true (natDigits i.natAbs ++ rest) := rfl
    rw [harg, hcons, habs true]
    have hv : (if true then (-1 : Int) else 1) * (i.natAbs : Int) = i := by
      rw [if_pos rfl]
      omega
    rw [hv]
  · have hdig : isDigitC d = true :=
      natDigits_all_digits i.natAbs d (by rw [hdds]; exact List.mem_cons_self d ds)
    have hdm : d ≠ '-' := by
      intro hEq
      rw [hEq] at hdig
      exact absurd hdig (by decide)
    have harg : intChars i ++ rest = d :: (ds ++ rest) := by
      simp [intChars, hneg, hdds]
    have hcons : parseNumber (d :: (ds ++ rest)) =
        parseNumAbs false (d :: (ds ++ rest)) := by
      simp only [parseNumber]
      rw [if_neg hdm]
    rw [harg, hcons, show d :: (ds ++ rest) = natDigits i.natAbs ++ rest from
      by rw [hdds, List.cons_append], habs false]
    have hv : (if false then (-1 : Int) else 1) * (i.natAbs : Int) = i := by
      rw [if_neg (by decide)]
      omega
    rw [hv]

/-- A rendered integer value parses back as that number. -/
theorem parseValue_num (fuel : Nat) (i : Int) (rest : List Char)
    (hrest : ∀ c t, rest = c :: t →
      isDigitC c = false ∧ c ≠ '.' ∧ c ≠ 'e' ∧ c ≠ 'E') :
    parseValue (fuel + 1) (intChars i ++ rest) = some (JValue.num i, rest) := by
  have hnum := parseNumber_intChars i rest hrest
  have hstep : ∀ (c : Char) (X : List Char),
      (¬(c = ' ' ∨ c = '\t' ∨ c = '\n' ∨ c = '\r') ∧ c ≠ '{' ∧ c ≠ '[' ∧
        c ≠ '"' ∧ c ≠ 'n' ∧ c ≠ 't' ∧ c ≠ 'f') →
      parseValue (fuel + 1) (c :: X) =
        (parseNumber (c :: X)).map (fun p => (JValue.num p.1, p.2)) := by
    intro c X hcs
    obtain ⟨h0, h1, h2, h3, h4, h5, h6⟩ := hcs
    simp only [parseValue, skipWs]
    rw [if_neg h0]
    try dsimp only
    rw [if_neg h1, if_neg h2, if_neg h3, if_neg h4, if_neg h5, if_neg h6]
  by_cases hneg : i < 0
  · have harg : intChars i ++ rest = '-' :: (natDigits i.natAbs ++ rest) := by
      simp [intChars, hneg]
    rw [harg, hstep '-' _ (by decide), ← harg, hnum]
    rfl
  · obtain ⟨d, ds, hdds⟩ : ∃ d ds, natDigits i.natAbs = d :: ds := by
      cases h : natDigits i.natAbs with
      | nil => exact absurd h (natDigits_ne_nil _)
      | cons d ds => exact ⟨d, ds, rfl⟩
    have hdig : isDigitC d = true :=
      natDigits_all_digits i.natAbs d (by rw [hdds]; exact List.mem_cons_self d ds)
    have hfacts : ¬(d = ' ' ∨ d = '\t' ∨ d = '\n' ∨ d = '\r') ∧ d ≠ '{' ∧
        d ≠ '[' ∧ d ≠ '"' ∧ d ≠ 'n' ∧ d ≠ 't' ∧ d ≠ 'f' := by
      refine ⟨?_, ?_, ?_, ?_, ?_, ?_, ?_⟩
      · rintro (rfl | rfl | rfl | rfl) <;> exact absurd hdig (by decide)
      · rintro rfl; exact absurd hdig (by decide)
      · rintro rfl; exact absurd hdig (by decide)
      · rintro rfl; exact absurd hdig (by decide)
      · rintro rfl; exact absurd hdig (by decide)
      · rintro rfl; exact absurd hdig (by decide)
      · rintro rfl; exact absurd hdig (by decide)
    have harg : intChars i ++ rest = d :: (ds ++ rest) := by
      simp [intChars, hneg, hdds]
    rw [harg, hstep d _ hfacts, ← harg, hnum]
    rfl

/-- A leading space before a value is skipped. -/
theorem parseValue_cons_space (fuel : Nat) (Y : List Char) :
    parseValue fuel (' ' :: Y) = parseValue fuel Y := by
  cases fuel <;> rfl

/-- A leading space before a member key is skipped. -/
theorem parseMembers_cons_space (fuel : Nat) (acc : List (String × JValue))
    (Y : List Char) :
    parseMembers fuel acc (' ' :: Y) = parseMembers fuel acc Y := by
  cases fuel <;> rfl

/-- One rendered `"key": ` prefix of a member: the parser consumes it and
hands the remainder to the value parser. -/
theorem parseMembers_member (fuel : Nat) (acc : List (String × JValue))
    (k : String) (V : List Char) :
    parseMembers (fuel + 1) acc
        ('"' :: (escapeList k.data ++ '"' :: ':' :: ' ' :: V)) =
      (match parseValue fuel V with
       | none => none
       | some (v, cs4) =>
         (match skipWs cs4 with
          | c5 :: cs5 =>
              if c5 = ',' then
                parseMembers fuel (objInsert acc (String.mk k.data) v) cs5
              else if c5 = '}' then
                some (objInsert acc (String.mk k.data) v, cs5)
              else none
          | [] => none)) := by
  have hstep : ∀ X : List Char, parseMembers (fuel + 1) acc ('"' :: X) =
      (match parseStrBody (X.length + 1) X with
       | none => none
       | some (key, cs2) =>
         (match skipWs cs2 with
          | c3 :: cs3 =>
            if c3 = ':' then
              (match parseValue fuel cs3 with
               | none => none
               | some (v, cs4) =>
                 (match skipWs cs4 with
                  | c5 :: cs5 =>
                      if c5 = ',' then
                        parseMembers fuel (objInsert acc (String.mk key) v) cs5
                      else if c5 = '}' then
                        some (objInsert acc (String.mk key) v, cs5)
                      else none
                  | [] => none))
            else none
          | [] => none)) := fun X => rfl
  have hlen : k.data.length <
      (escapeList k.data ++ '"' :: ':' :: ' ' :: V).length + 1 := by
    have := length_le_escapeList k.data
    simp only [List.length_append, List.length_cons]
    omega
  rw [hstep, parseStrBody_escapeList k.data _ _ hlen]
  try dsimp only
  rw [show skipWs (':' :: ' ' :: V) = ':' :: ' ' :: V from rfl]
  try dsimp only
  rw [if_pos rfl, parseValue_cons_space]

/-- A full member whose value is a string, followed by `", "` and more
members: the parser accumulates it and moves on. -/
theorem parseMembers_str_comma (fuel : Nat) (acc : List (String × JValue))
    (k s : String) (rest2 : List Char) :
    parseMembers (fuel + 2) acc
        ('"' :: (escapeList k.data ++ '"' :: ':' :: ' ' :: '"' ::
          (escapeList s.data ++ '"' :: ',' :: ' ' :: rest2))) =
      parseMembers (fuel + 1)
        (objInsert acc (String.mk k.data) (JValue.str s)) rest2 := by
  rw [parseMembers_member (fuel + 1) acc k
    ('"' :: (escapeList s.data ++ '"' :: ',' :: ' ' :: rest2))]
  rw [parseValue_str fuel s (',' :: ' ' :: rest2)]
  try dsimp only
  rw [show skipWs (',' :: ' ' :: rest2) = ',' :: ' ' :: rest2 from rfl]
  try dsimp only
  rw [if_pos rfl, parseMembers_cons_space]

/-- The final member, an integer value closed by `}`: the parser returns
the accumulated object and the remainder after the brace. -/
theorem parseMembers_num_brace (fuel : Nat) (acc : List (String × JValue))
    (k : String) (t : Int) (rest : List Char) :
    parseMembers (fuel + 2) acc
        ('"' :: (escapeList k.data ++ '"' :: ':' :: ' ' ::
          (intChars t ++ '}' :: rest))) =
      some (objInsert acc (String.mk k.data) (JValue.num t), rest) := by
  rw [parseMembers_member (fuel + 1) acc k (intChars t ++ '}' :: rest)]
  rw [parseValue_num fuel t ('}' :: rest)
    (fun c t' ht => by cases ht; exact ⟨by decide, by decide, by decide, by decide⟩)]
  try dsimp only
  rw [show skipWs ('}' :: rest) = '}' :: rest from rfl]
  try dsimp only
  rw [if_neg (by decide), if_pos rfl]

/-- The serialized message, character by character. -/
theorem message_dump_chars (a b : String) (t : Int) :
    dumpValue (Message.toJValue ⟨a, b, t⟩) =
      '{' :: '"' :: (escapeList "viewer_id".data ++ '"' :: ':' :: ' ' :: '"' ::
        (escapeList a.data ++ '"' :: ',' :: ' ' :: '"' ::
          (escapeList "image_webp".data ++ '"' :: ':' :: ' ' :: '"' ::
            (escapeList b.data ++ '"' :: ',' :: ' ' :: '"' ::
              (escapeList "timestamp".data ++ '"' :: ':' :: ' ' ::
                (intChars t ++ ['}'])))))) := by
  simp [Message.toJValue, dumpValue, dumpMembers, dumpStringChars]

/-- Parsing the serialized message recovers the message object, with
any remainder untouched. -/
theorem parseValue_message (a b : String) (t : Int) (fuel : Nat)
    (rest : List Char) :
    parseValue (fuel + 5) (dumpValue (Message.toJValue ⟨a, b, t⟩) ++ rest) =
      some (Message.toJValue ⟨a, b, t⟩, rest) := by
  have harg : dumpValue (Message.toJValue ⟨a, b, t⟩) ++ rest =
      '{' :: '"' :: (escapeList "viewer_id".data ++ '"' :: ':' :: ' ' :: '"' ::
        (escapeList a.data ++ '"' :: ',' :: ' ' :: '"' ::
          (escapeList "image_webp".data ++ '"' :: ':' :: ' ' :: '"' ::
            (escapeList b.data ++ '"' :: ',' :: ' ' :: '"' ::
              (escapeList "timestamp".data ++ '"' :: ':' :: ' ' ::
                (intChars t ++ '}' :: rest)))))) := by
    rw [message_dump_chars]
    simp
  rw [harg]
  have hobj : ∀ Y : List Char, parseValue (fuel + 5) ('{' :: '"' :: Y) =
      (parseMembers (fuel + 4) [] ('"' :: Y)).map
        (fun p => (JValue.obj p.1, p.2)) := fun Y => rfl
  rw [hobj]
  rw [parseMembers_str_comma (fuel + 2) [] "viewer_id" a]
  rw [parseMembers_str_comma (fuel + 1) _ "image_webp" b]
  rw [parseMembers_num_brace fuel _ "timestamp" t rest]
  rfl

/-- C3: serializing any wire `Message` (string viewer id, string image
payload, integer timestamp) and deserializing the result yields the
message back — the round trip is the identity, with validation passing. -/
theorem C3_serialize_roundtrip (m : Message) :
    deserialize_message (serialize_message m.toJValue) = some m.toJValue := by
  obtain ⟨a, b, t⟩ := m
  have hlen4 : 4 ≤ (dumpValue (Message.toJValue ⟨a, b, t⟩)).length := by
    rw [message_dump_chars]
    simp [List.length_append]
    omega
  obtain ⟨g, hg⟩ :
      ∃ g, (dumpValue (Message.toJValue ⟨a, b, t⟩)).length + 1 = g + 5 :=
    ⟨(dumpValue (Message.toJValue ⟨a, b, t⟩)).length - 4, by omega⟩
  have hparse := parseValue_message a b t g []
  rw [List.append_nil] at hparse
  have hloads : json_loads (serialize_message (Message.toJValue ⟨a, b, t⟩)) =
      some (Message.toJValue ⟨a, b, t⟩) := by
    show (match parseValue
        ((dumpValue (Message.toJValue ⟨a, b, t⟩)).length + 1)
        (dumpValue (Message.toJValue ⟨a, b, t⟩)) with
      | some (v, rest) => if skipWs rest = [] then some v else none
      | none => none) = _
    rw [hg, hparse]
    rfl
  have hval : validate_message (Message.toJValue ⟨a, b, t⟩) = true := rfl
  simp [deserialize_message, hloads, hval]

end LIC
